import Mathlib

/-!
Shallow embedding of the Dart VM `ThreadRegistry`
(`src/runtime/vm/thread_registry.h`).

The registry is an unordered growable array of per-thread entries plus
rendezvous bookkeeping, all guarded by one monitor.  Each public method is a
bounded critical section; we embed each method as a pure function from the
registry state (plus the live thread data it reads) to a result.  Pointers
are modelled as numeric identities; a nullable `Zone*` becomes
`Option ZoneId`.  `ASSERT`/`FATAL` (fatal in debug builds, and specified as
fatal contract violations) are modelled as an error result, so a method that
does not return normally yields `.error`.  A monitor wait that can never be
signalled in a sequential execution is likewise an `.error .blockedInRendezvous`
result (the concurrent rendezvous protocol itself is modelled separately as a
labelled transition system further below).
-/

namespace ThreadRegistry

/-- Identity of a `Thread*` (stable pointer identity). -/
abbrev ThreadId := Nat

/-- Identity of a non-null `Zone*` (a thread's memory arena). -/
abbrev ZoneId := Nat

/-- Identity of an `Isolate*`, used only in diagnostic messages. -/
abbrev IsolateId := Nat

/-- `Thread::State`: the saved execution-state snapshot.  The registry reads
`top_exit_frame_info` (the outermost native-call boundary marker) and `zone`
(nullable arena reference); everything else is opaque and copied verbatim,
represented by `payload`. -/
structure TState where
  top_exit_frame_info : Nat
  zone : Option ZoneId
  payload : Nat
deriving Repr, DecidableEq

/-- `ThreadRegistry::Entry`: one record per thread that has ever attached. -/
structure Entry where
  thread : ThreadId
  scheduled : Bool
  state : TState
deriving Repr, DecidableEq

/-- The registry state: the entry table plus the safepoint-rendezvous fields
(`in_rendezvous_`, `remaining_`, `round_`). -/
structure Registry where
  entries : List Entry
  in_rendezvous : Bool
  remaining : Int
  round : Nat
deriving Repr, DecidableEq

/-- A freshly constructed registry (`ThreadRegistry()`): empty table, no
rendezvous in progress. -/
def emptyRegistry : Registry :=
  { entries := [], in_rendezvous := false, remaining := 0, round := 0 }

/-- Why a method did not return normally. -/
inductive Err where
  /-- An `ASSERT`/`FATAL` contract check fired (fatal, process-terminating). -/
  | assertFailed
  /-- The method blocked on the monitor waiting for a rendezvous to end; in a
  sequential execution no other thread can end it, so there is no normal
  return. -/
  | blockedInRendezvous
deriving Repr, DecidableEq

/-- `ThreadRegistry::FindEntry`: linear scan returning the first entry whose
`thread` field equals `thread`, or `NULL`. -/
def findEntry (entries : List Entry) (t : ThreadId) : Option Entry :=
  entries.find? (fun e => e.thread == t)

/-- In-place mutation through the `Entry*` returned by `FindEntry`: rewrite
the first entry whose `thread` equals `t` with `f`, leaving every other entry
untouched. -/
def updateFirst (entries : List Entry) (t : ThreadId) (f : Entry → Entry) :
    List Entry :=
  match entries with
  | [] => []
  | e :: es =>
    if e.thread == t then f e :: es else e :: updateFirst es t f

/-- The debug-build poison pattern (`memset(&state, 0xda, sizeof state)`)
written into a state field that is not in use; its value is never meaningful.
In release builds the field is simply left unread; we use the same marker for
both build modes since no operation reads it. -/
def zapState : TState :=
  { top_exit_frame_info := 0xdadadada, zone := none, payload := 0xdadadada }

/-- Modelled from the spec: `CheckSafepointLocked` (declared at
`thread_registry.h:141`, body not in the repository).  Per the spec's
`CheckIn` (§4.2), with no rendezvous pending it returns immediately with no
state change; with a rendezvous pending it decrements `remaining` and blocks
until resumed — in a sequential execution that wait can never be signalled,
so there is no normal return. -/
def checkSafepointLocked (r : Registry) : Except Err Registry :=
  if r.in_rendezvous then .error .blockedInRendezvous else .ok r

/-- `ThreadRegistry::RestoreStateTo` (Attach): wait out any rendezvous, then
either re-schedule an existing entry (validating the monotonicity of the
thread's live `top_exit_frame_info` against the saved one, and asserting the
entry was not already scheduled) and hand back the saved state, or insert a
fresh scheduled entry.  Returns the updated registry, the `bool` result
(`true` iff an entry was found) and the value written through the `state`
out-parameter (`none` when it is left untouched).  `live_tefi` is the value
of `thread->top_exit_frame_info()`. -/
def restoreStateTo (r : Registry) (t : ThreadId) (live_tefi : Nat) :
    Except Err (Registry × Bool × Option TState) :=
  if r.in_rendezvous then .error .blockedInRendezvous
  else
    match findEntry r.entries t with
    | some entry =>
      let st := entry.state
      if st.top_exit_frame_info ≠ live_tefi ∧
          ¬(live_tefi = 0 ∨ st.top_exit_frame_info < live_tefi) then
        .error .assertFailed
      else if entry.scheduled then .error .assertFailed
      else
        .ok ({ r with
                entries := updateFirst r.entries t
                  (fun e => { e with scheduled := true }) },
             true, some st)
    | none =>
      .ok ({ r with
              entries := r.entries ++
                [{ thread := t, scheduled := true, state := zapState }] },
           false, none)

/-- `ThreadRegistry::SaveStateFrom` (Detach): service any pending safepoint
(exiting an isolate is itself a safepoint), then require an existing,
currently scheduled entry, mark it descheduled and store `state` into it. -/
def saveStateFrom (r : Registry) (t : ThreadId) (state : TState) :
    Except Err Registry :=
  match checkSafepointLocked r with
  | .error e => .error e
  | .ok r0 =>
    match findEntry r0.entries t with
    | none => .error .assertFailed
    | some entry =>
      if entry.scheduled then
        .ok { r0 with
                entries := updateFirst r0.entries t
                  (fun e => { e with scheduled := false, state := state }) }
      else .error .assertFailed

/-- `ThreadRegistry::Contains`: true iff an entry exists for `t`. -/
def contains (r : Registry) (t : ThreadId) : Bool :=
  (findEntry r.entries t).isSome

/-- `ThreadRegistry::CheckNotScheduled`: scan the table; the first entry still
scheduled triggers `FATAL3`, whose message carries the isolate and the
offending thread.  Normal return is `.ok ()`; the registry state is not
modified either way (the method only reads the table). -/
def checkNotScheduled (r : Registry) (isolate : IsolateId) :
    Except (IsolateId × ThreadId) Unit :=
  match r.entries.find? (fun e => e.scheduled) with
  | some e => .error (isolate, e.thread)
  | none => .ok ()

/-- The arena pointer `VisitObjectPointers` reads for one entry:
`entry.scheduled ? entry.thread->zone() : entry.state.zone`.  `liveZone`
models the accessor `thread->zone()` of each live thread. -/
def appZone (liveZone : ThreadId → Option ZoneId) (e : Entry) : Option ZoneId :=
  if e.scheduled then liveZone e.thread else e.state.zone

/-- `ThreadRegistry::VisitObjectPointers`: for each entry in table order,
compute its applicable arena and, when non-null, call
`zone->VisitObjectPointers(visitor)`.  The result is the trace of arenas so
visited, in order. -/
def visitObjectPointers (r : Registry) (liveZone : ThreadId → Option ZoneId) :
    List ZoneId :=
  r.entries.filterMap (appZone liveZone)

/-- Table uniqueness invariant: at most one entry per thread identity. -/
def uniqueTable (es : List Entry) : Prop :=
  (es.map (·.thread)).Nodup

/-! ### Attach/detach operation sequences -/

/-- One attach (`RestoreStateTo`) or detach (`SaveStateFrom`) call.  For an
attach, `live_tefi` is the calling thread's live `top_exit_frame_info()`. -/
inductive Op where
  | attach (t : ThreadId) (live_tefi : Nat)
  | detach (t : ThreadId) (s : TState)
deriving Repr, DecidableEq

/-- Run one operation, keeping only the registry state. -/
def runOp (r : Registry) : Op → Except Err Registry
  | .attach t live_tefi =>
    match restoreStateTo r t live_tefi with
    | .ok (r', _, _) => .ok r'
    | .error e => .error e
  | .detach t s => saveStateFrom r t s

/-- Run a sequence of operations; the first fatal/blocked call aborts. -/
def run (r : Registry) : List Op → Except Err Registry
  | [] => .ok r
  | op :: ops =>
    match runOp r op with
    | .ok r' => run r' ops
    | .error e => .error e

/-- The thread identities that attach at least once in a sequence. -/
def attachedIds : List Op → List ThreadId
  | [] => []
  | .attach t _ :: ops => t :: attachedIds ops
  | .detach _ _ :: ops => attachedIds ops

/-! ### Safepoint rendezvous protocol

`SafepointThreads`, `ResumeAllThreads` and `CheckSafepointLocked` are only
declared in the repository (`thread_registry.h:32,37,141`); their bodies are
not present.  The protocol below is modelled from the spec, §4.2: each
monitor-guarded critical section becomes one atomic transition of a labelled
transition system.  `ws` is the set of scheduled worker threads; since
attach/detach cannot proceed while a rendezvous is active (they wait on
`in_rendezvous_` / check in first), the scheduled set is constant from the
moment `remaining_` is snapshotted until the matching resume, and the model
keeps it fixed. -/

/-- Program counter of a thread driving `RequestAndWaitForPause` /
`ResumePausedThreads` (`SafepointThreads` / `ResumeAllThreads`). -/
inductive RPc where
  | idle
  /-- Inside `RequestAndWaitForPause`, blocked until `remaining = 0`. -/
  | waiting
  /-- Returned from `RequestAndWaitForPause`; the pause is in force and
  `ResumePausedThreads` has not yet been called. -/
  | owner
deriving Repr, DecidableEq

/-- Program counter of a worker thread with respect to `CheckIn`
(`CheckSafepointLocked`). -/
inductive WPc where
  | running
  /-- Checked in for the rendezvous round `my_round` and parked in the wait
  loop whose condition is `in_rendezvous ∧ round = my_round`. -/
  | parked (my_round : Nat)
deriving Repr, DecidableEq

/-- Global state of the rendezvous protocol: the registry's rendezvous
fields plus every thread's program counter. -/
structure Sys where
  in_rendezvous : Bool
  remaining : Int
  round : Nat
  req : Nat → RPc
  wrk : Nat → WPc

/-- Pointwise function update. -/
def updf {α : Type} (f : Nat → α) (a : Nat) (b : α) : Nat → α :=
  fun x => if x = a then b else f x

/-- Initial state: no rendezvous pending, nobody requesting, every worker
running. -/
def initSys : Sys :=
  { in_rendezvous := false, remaining := 0, round := 0,
    req := fun _ => .idle, wrk := fun _ => .running }

/-- Transition labels; the payload names the acting thread. -/
inductive Label where
  /-- Steps 1–4 of `RequestAndWaitForPause`: the requester got out of the
  `while in_rendezvous wait` loop, incremented `round`, snapshotted
  `remaining` and raised `in_rendezvous`, all in one critical section. -/
  | snapshot (r : Nat)
  /-- Step 5–6: the requester observes `remaining = 0` and returns. -/
  | reqReturn (r : Nat)
  /-- `ResumePausedThreads`: clear `in_rendezvous`, broadcast. -/
  | resume (r : Nat)
  /-- Step 2 of `CheckIn`: a scheduled worker decrements `remaining`,
  captures the round and parks. -/
  | checkin (w : Nat)
  /-- Step 1 of `CheckIn`: no rendezvous pending, return immediately. -/
  | checkinNoop (w : Nat)
  /-- A parked worker's wait condition became false; it leaves `CheckIn`. -/
  | wake (w : Nat)
deriving Repr, DecidableEq

/-- Modelled from the spec: the atomic transitions of §4.2's rendezvous
coordinator (`SafepointThreads` / `ResumeAllThreads` /
`CheckSafepointLocked`, whose bodies are not in the repository).  Each
constructor is one lock-protected critical section; condition-variable waits
appear as preconditions on when the transition may fire. -/
inductive RStep (ws : List Nat) : Sys → Label → Sys → Prop
  | snapshot (s : Sys) (r : Nat)
      (h1 : s.req r = .idle) (h2 : s.in_rendezvous = false) :
      RStep ws s (.snapshot r)
        { in_rendezvous := true, remaining := (ws.length : Int),
          round := s.round + 1, req := updf s.req r .waiting, wrk := s.wrk }
  | reqReturn (s : Sys) (r : Nat)
      (h1 : s.req r = .waiting) (h2 : s.remaining = 0) :
      RStep ws s (.reqReturn r) { s with req := updf s.req r .owner }
  | resume (s : Sys) (r : Nat) (h1 : s.req r = .owner) :
      RStep ws s (.resume r)
        { s with in_rendezvous := false, req := updf s.req r .idle }
  | checkin (s : Sys) (w : Nat)
      (h1 : w ∈ ws) (h2 : s.wrk w = .running) (h3 : s.in_rendezvous = true) :
      RStep ws s (.checkin w)
        { s with remaining := s.remaining - 1,
                 wrk := updf s.wrk w (.parked s.round) }
  | checkinNoop (s : Sys) (w : Nat) (h : s.in_rendezvous = false) :
      RStep ws s (.checkinNoop w) s
  | wake (s : Sys) (w : Nat) (mr : Nat)
      (h1 : s.wrk w = .parked mr)
      (h2 : ¬(s.in_rendezvous = true ∧ s.round = mr)) :
      RStep ws s (.wake w) { s with wrk := updf s.wrk w .running }

/-- Reflexive–transitive runs of the protocol, recording the label trace. -/
inductive Steps (ws : List Nat) : Sys → List Label → Sys → Prop
  | nil (s : Sys) : Steps ws s [] s
  | cons {s s₁ s₂ : Sys} {l : Label} {ls : List Label}
      (h : RStep ws s l s₁) (hs : Steps ws s₁ ls s₂) : Steps ws s (l :: ls) s₂

/-- A worker that has not yet checked in for the current round. -/
def unchecked (s : Sys) (w : Nat) : Bool :=
  !(s.wrk w == WPc.parked s.round)

/-- The protocol invariant: parked rounds never exceed the current round;
only during a rendezvous is any requester active, and then exactly one; and
during a rendezvous `remaining` counts the scheduled workers that have not
yet checked in for the current round. -/
def SysInv (ws : List Nat) (s : Sys) : Prop :=
  (∀ w mr, s.wrk w = .parked mr → mr ≤ s.round) ∧
  (∀ r, s.req r ≠ .idle → s.in_rendezvous = true) ∧
  (∀ r₁ r₂, s.req r₁ ≠ .idle → s.req r₂ ≠ .idle → r₁ = r₂) ∧
  (s.in_rendezvous = true →
    s.remaining = ((ws.filter (unchecked s)).length : Int))

/-! ### Basic lemmas about the entry table -/

theorem findEntry_nil {t : ThreadId} : findEntry [] t = none := rfl

theorem findEntry_cons_pos {a : Entry} {as : List Entry} {t : ThreadId}
    (h : a.thread = t) : findEntry (a :: as) t = some a := by
  simp [findEntry, List.find?_cons, h]

theorem findEntry_cons_neg {a : Entry} {as : List Entry} {t : ThreadId}
    (h : a.thread ≠ t) : findEntry (a :: as) t = findEntry as t := by
  simp [findEntry, List.find?_cons, h]

theorem findEntry_eq_none_iff {es : List Entry} {t : ThreadId} :
    findEntry es t = none ↔ ∀ e ∈ es, e.thread ≠ t := by
  simp [findEntry, List.find?_eq_none]

theorem updateFirst_cons_pos {a : Entry} {as : List Entry} {t : ThreadId}
    {f : Entry → Entry} (h : a.thread = t) :
    updateFirst (a :: as) t f = f a :: as := by
  simp [updateFirst, h]

theorem updateFirst_cons_neg {a : Entry} {as : List Entry} {t : ThreadId}
    {f : Entry → Entry} (h : a.thread ≠ t) :
    updateFirst (a :: as) t f = a :: updateFirst as t f := by
  simp [updateFirst, h]

/-- A successful `FindEntry` splits the table at the first matching entry,
and mutating through the returned pointer rewrites exactly that entry. -/
theorem findEntry_updateFirst_decomp {es : List Entry} {t : ThreadId}
    {e : Entry} (h : findEntry es t = some e) (f : Entry → Entry) :
    ∃ pre post, es = pre ++ e :: post ∧ (∀ x ∈ pre, x.thread ≠ t) ∧
      e.thread = t ∧ updateFirst es t f = pre ++ f e :: post := by
  induction es with
  | nil => simp [findEntry] at h
  | cons a as ih =>
    by_cases ha : a.thread = t
    · rw [findEntry_cons_pos ha] at h
      obtain rfl : a = e := by injection h
      exact ⟨[], as, rfl, by simp, ha, by simp [updateFirst_cons_pos ha]⟩
    · rw [findEntry_cons_neg ha] at h
      obtain ⟨pre, post, hes, hpre, het, hupd⟩ := ih h
      refine ⟨a :: pre, post, by simp [hes], ?_, het,
        by simp [updateFirst_cons_neg ha, hupd]⟩
      intro x hx
      rcases List.mem_cons.mp hx with rfl | hx
      · exact ha
      · exact hpre x hx

theorem findEntry_append_cons {pre post : List Entry} {e : Entry}
    {t : ThreadId} (hpre : ∀ x ∈ pre, x.thread ≠ t) (he : e.thread = t) :
    findEntry (pre ++ e :: post) t = some e := by
  induction pre with
  | nil => exact findEntry_cons_pos he
  | cons a as ih =>
    rw [List.cons_append, findEntry_cons_neg (hpre a (by simp))]
    exact ih fun x hx => hpre x (by simp [hx])

theorem updateFirst_append_cons {pre post : List Entry} {e : Entry}
    {t : ThreadId} {f : Entry → Entry}
    (hpre : ∀ x ∈ pre, x.thread ≠ t) (he : e.thread = t) :
    updateFirst (pre ++ e :: post) t f = pre ++ f e :: post := by
  induction pre with
  | nil => exact updateFirst_cons_pos he
  | cons a as ih =>
    rw [List.cons_append, updateFirst_cons_neg (hpre a (by simp)),
      ih fun x hx => hpre x (by simp [hx])]
    rfl

/-- `updateFirst` never changes which thread each slot belongs to, as long as
the rewrite keeps the `thread` field. -/
theorem updateFirst_map_thread {es : List Entry} {t : ThreadId}
    {f : Entry → Entry} (hf : ∀ e, (f e).thread = e.thread) :
    (updateFirst es t f).map (·.thread) = es.map (·.thread) := by
  induction es with
  | nil => rfl
  | cons a as ih =>
    by_cases ha : a.thread = t
    · simp [updateFirst_cons_pos ha, hf]
    · simp [updateFirst_cons_neg ha, ih]

/-- Membership in the table depends only on the sequence of thread ids. -/
theorem findEntry_isSome_eq {es : List Entry} {t : ThreadId} :
    (findEntry es t).isSome = (es.map (·.thread)).contains t := by
  induction es with
  | nil => rfl
  | cons a as ih =>
    by_cases ha : a.thread = t
    · simp [findEntry_cons_pos ha, ha]
    · simp [findEntry_cons_neg ha, ih, ha, Ne.symm ha]

/-! ### Inversion and membership lemmas for the public operations -/

theorem contains_iff_mem_map {r : Registry} {u : ThreadId} :
    contains r u = true ↔ u ∈ r.entries.map (·.thread) := by
  simp only [contains, findEntry, List.find?_isSome, List.mem_map,
    beq_iff_eq]

/-- Defining equation: `RestoreStateTo` while a rendezvous is in progress
waits on the monitor, which no sequential execution can signal. -/
theorem restoreStateTo_blocked_eq {r : Registry} {t : ThreadId} {lt : Nat}
    (hrv : r.in_rendezvous = true) :
    restoreStateTo r t lt = .error .blockedInRendezvous := by
  simp [restoreStateTo, hrv]

/-- Defining equation: first attach (no entry found). -/
theorem restoreStateTo_not_found_eq {r : Registry} {t : ThreadId} {lt : Nat}
    (hrv : r.in_rendezvous = false) (hfe : findEntry r.entries t = none) :
    restoreStateTo r t lt =
      .ok ({ r with entries := r.entries ++
              [{ thread := t, scheduled := true, state := zapState }] },
           false, none) := by
  simp [restoreStateTo, hrv, hfe]

/-- Defining equation: successful re-attach of a found, descheduled entry
whose saved marker passes the monotonicity check. -/
theorem restoreStateTo_found_eq {r : Registry} {t : ThreadId} {lt : Nat}
    {e : Entry} (hrv : r.in_rendezvous = false)
    (hfe : findEntry r.entries t = some e)
    (hcond : ¬(e.state.top_exit_frame_info ≠ lt ∧
        ¬(lt = 0 ∨ e.state.top_exit_frame_info < lt)))
    (hsch : e.scheduled = false) :
    restoreStateTo r t lt =
      .ok ({ r with entries :=
              updateFirst r.entries t (fun x => { x with scheduled := true }) },
           true, some e.state) := by
  rw [restoreStateTo, if_neg (by simp [hrv]), hfe]
  simp only
  rw [if_neg hcond, if_neg (by simp [hsch])]

/-- Defining equation: the monotonicity `ASSERT` fires. -/
theorem restoreStateTo_assert_tefi_eq {r : Registry} {t : ThreadId}
    {lt : Nat} {e : Entry} (hrv : r.in_rendezvous = false)
    (hfe : findEntry r.entries t = some e)
    (hcond : e.state.top_exit_frame_info ≠ lt ∧
        ¬(lt = 0 ∨ e.state.top_exit_frame_info < lt)) :
    restoreStateTo r t lt = .error .assertFailed := by
  rw [restoreStateTo, if_neg (by simp [hrv]), hfe]
  simp only
  rw [if_pos hcond]

/-- Defining equation: the `ASSERT(!entry->scheduled)` fires. -/
theorem restoreStateTo_assert_sched_eq {r : Registry} {t : ThreadId}
    {lt : Nat} {e : Entry} (hrv : r.in_rendezvous = false)
    (hfe : findEntry r.entries t = some e)
    (hcond : ¬(e.state.top_exit_frame_info ≠ lt ∧
        ¬(lt = 0 ∨ e.state.top_exit_frame_info < lt)))
    (hsch : e.scheduled = true) :
    restoreStateTo r t lt = .error .assertFailed := by
  rw [restoreStateTo, if_neg (by simp [hrv]), hfe]
  simp only
  rw [if_neg hcond, if_pos (by simp [hsch])]

/-- Defining equation: `SaveStateFrom` while a rendezvous is in progress has
no normal sequential return (it checks in and waits to be resumed). -/
theorem saveStateFrom_blocked_eq {r : Registry} {t : ThreadId} {s : TState}
    (hrv : r.in_rendezvous = true) :
    saveStateFrom r t s = .error .blockedInRendezvous := by
  simp [saveStateFrom, checkSafepointLocked, hrv]

/-- Defining equation: detach of an unknown thread is fatal. -/
theorem saveStateFrom_none_eq {r : Registry} {t : ThreadId} {s : TState}
    (hrv : r.in_rendezvous = false) (hfe : findEntry r.entries t = none) :
    saveStateFrom r t s = .error .assertFailed := by
  simp [saveStateFrom, checkSafepointLocked, hrv, hfe]

/-- Defining equation: detach of a descheduled thread is fatal. -/
theorem saveStateFrom_notsched_eq {r : Registry} {t : ThreadId} {s : TState}
    {e : Entry} (hrv : r.in_rendezvous = false)
    (hfe : findEntry r.entries t = some e) (hsch : e.scheduled = false) :
    saveStateFrom r t s = .error .assertFailed := by
  simp [saveStateFrom, checkSafepointLocked, hrv, hfe, hsch]

/-- Defining equation: successful detach. -/
theorem saveStateFrom_ok_eq {r : Registry} {t : ThreadId} {s : TState}
    {e : Entry} (hrv : r.in_rendezvous = false)
    (hfe : findEntry r.entries t = some e) (hsch : e.scheduled = true) :
    saveStateFrom r t s =
      .ok ({ r with entries := updateFirst r.entries t (fun x => { x with scheduled := false, state := s }) }) := by
  simp [saveStateFrom, checkSafepointLocked, hrv, hfe, hsch]

/-- What a normal return of `RestoreStateTo` did to the table: either the
found entry was rescheduled in place, or a fresh entry was appended. -/
theorem restoreStateTo_ok_inv {r : Registry} {t : ThreadId} {lt : Nat}
    {out : Registry × Bool × Option TState}
    (h : restoreStateTo r t lt = .ok out) :
    ((findEntry r.entries t).isSome = true ∧
      out.1.entries =
        updateFirst r.entries t (fun e => { e with scheduled := true })) ∨
    (findEntry r.entries t = none ∧
      out.1.entries = r.entries ++
        [{ thread := t, scheduled := true, state := zapState }]) := by
  cases hrv : r.in_rendezvous
  · rcases hfe : findEntry r.entries t with _ | e
    · rw [restoreStateTo_not_found_eq hrv hfe] at h
      rw [Except.ok.injEq] at h
      exact Or.inr ⟨rfl, by rw [← h]⟩
    · by_cases hcond : e.state.top_exit_frame_info ≠ lt ∧
          ¬(lt = 0 ∨ e.state.top_exit_frame_info < lt)
      · rw [restoreStateTo_assert_tefi_eq hrv hfe hcond] at h
        exact absurd h (by simp)
      · cases hsch : e.scheduled
        · rw [restoreStateTo_found_eq hrv hfe hcond hsch] at h
          rw [Except.ok.injEq] at h
          exact Or.inl ⟨by simp [hfe], by rw [← h]⟩
        · rw [restoreStateTo_assert_sched_eq hrv hfe hcond hsch] at h
          exact absurd h (by simp)
  · rw [restoreStateTo_blocked_eq hrv] at h
    exact absurd h (by simp)

/-- What a normal return of `SaveStateFrom` did to the table. -/
theorem saveStateFrom_ok_inv {r : Registry} {t : ThreadId} {s : TState}
    {r' : Registry} (h : saveStateFrom r t s = .ok r') :
    (findEntry r.entries t).isSome = true ∧
      r'.entries = updateFirst r.entries t
        (fun e => { e with scheduled := false, state := s }) := by
  cases hrv : r.in_rendezvous
  · rcases hfe : findEntry r.entries t with _ | e
    · rw [saveStateFrom_none_eq hrv hfe] at h
      exact absurd h (by simp)
    · cases hsch : e.scheduled
      · rw [saveStateFrom_notsched_eq hrv hfe hsch] at h
        exact absurd h (by simp)
      · rw [saveStateFrom_ok_eq hrv hfe hsch] at h
        rw [Except.ok.injEq] at h
        exact ⟨by simp [hfe], by rw [← h]⟩
  · rw [saveStateFrom_blocked_eq hrv] at h
    exact absurd h (by simp)

theorem contains_restoreStateTo {r : Registry} {t : ThreadId} {lt : Nat}
    {out : Registry × Bool × Option TState}
    (h : restoreStateTo r t lt = .ok out) (u : ThreadId) :
    (contains out.1 u = true ↔ contains r u = true ∨ u = t) := by
  rcases restoreStateTo_ok_inv h with ⟨hsome, hent⟩ | ⟨hnone, hent⟩
  · rw [contains_iff_mem_map, hent,
      updateFirst_map_thread (f := fun e => { e with scheduled := true })
        (fun _ => rfl),
      ← contains_iff_mem_map]
    constructor
    · exact Or.inl
    · rintro (hc | rfl)
      · exact hc
      · exact hsome
  · rw [contains_iff_mem_map, hent]
    simp [contains_iff_mem_map]

theorem contains_saveStateFrom {r : Registry} {t : ThreadId} {s : TState}
    {r' : Registry} (h : saveStateFrom r t s = .ok r') (u : ThreadId) :
    contains r' u = contains r u := by
  obtain ⟨-, hent⟩ := saveStateFrom_ok_inv h
  unfold contains
  rw [findEntry_isSome_eq, findEntry_isSome_eq, hent,
    updateFirst_map_thread
      (f := fun e => { e with scheduled := false, state := s })
      (fun _ => rfl)]

theorem length_filterMap_of_isSome {α β : Type} (f : α → Option β)
    (l : List α) (h : ∀ a ∈ l, (f a).isSome = true) :
    (l.filterMap f).length = l.length := by
  induction l with
  | nil => rfl
  | cons a as ih =>
    rcases hfa : f a with _ | b
    · have ha := h a (by simp)
      rw [hfa] at ha
      exact absurd ha (by simp)
    · simp only [List.filterMap_cons, hfa, List.length_cons]
      rw [ih fun x hx => h x (by simp [hx])]

/-- The ever-attached invariant, generalized over the starting registry. -/
theorem run_contains {ops : List Op} {r0 r : Registry}
    (h : run r0 ops = .ok r) (u : ThreadId) :
    (contains r u = true ↔ contains r0 u = true ∨ u ∈ attachedIds ops) := by
  induction ops generalizing r0 with
  | nil =>
    simp only [run, Except.ok.injEq] at h
    subst h
    simp [attachedIds]
  | cons op rest ih =>
    simp only [run] at h
    rcases hop : runOp r0 op with e | r1
    · rw [hop] at h; simp at h
    · rw [hop] at h
      simp only at h
      cases op with
      | attach t lt =>
        simp only [runOp] at hop
        rcases hres : restoreStateTo r0 t lt with e | out
        · rw [hres] at hop; simp at hop
        · rw [hres] at hop
          simp only [Except.ok.injEq] at hop
          subst hop
          rw [ih h, contains_restoreStateTo hres u]
          simp only [attachedIds, List.mem_cons]
          tauto
      | detach t s =>
        simp only [runOp] at hop
        rw [ih h, contains_saveStateFrom hop u]
        simp [attachedIds]

/-! ### Fixtures for concrete witnesses -/

/-- A sample saved state. -/
def sampleS : TState :=
  { top_exit_frame_info := 4, zone := some 9, payload := 11 }

/-- A registry holding one scheduled entry for thread 3. -/
def reg1 : Registry :=
  { entries := [{ thread := 3, scheduled := true, state := zapState }],
    in_rendezvous := false, remaining := 0, round := 0 }

/-- A registry holding one descheduled entry for thread 1 whose saved
`top_exit_frame_info` is 5. -/
def reg2 : Registry :=
  { entries := [{ thread := 1, scheduled := false,
                  state := { top_exit_frame_info := 5, zone := none,
                             payload := 0 } }],
    in_rendezvous := false, remaining := 0, round := 0 }

/-! ### Lemmas about the rendezvous protocol -/

theorem updf_self {α : Type} (f : Nat → α) (a : Nat) (b : α) :
    updf f a b a = b := by
  simp [updf]

theorem updf_ne {α : Type} {x a : Nat} (h : x ≠ a) (f : Nat → α) (b : α) :
    updf f a b x = f x := by
  simp [updf, h]

/-- Flipping one element of a `Nodup` list out of a filter shrinks the
filtered length by exactly one. -/
theorem length_filter_flip {l : List Nat} {p q : Nat → Bool} {w : Nat}
    (hnd : l.Nodup) (hw : w ∈ l) (hpw : p w = true) (hqw : q w = false)
    (hagree : ∀ x ∈ l, x ≠ w → p x = q x) :
    (l.filter p).length = (l.filter q).length + 1 := by
  induction l with
  | nil => cases hw
  | cons a as ih =>
    obtain ⟨hanotin, hndas⟩ := List.nodup_cons.mp hnd
    rcases List.mem_cons.mp hw with rfl | hw'
    · rw [List.filter_cons, List.filter_cons, hpw, hqw]
      simp only [if_true, Bool.false_eq_true, if_false, List.length_cons]
      rw [List.filter_congr fun x hx =>
        hagree x (by simp [hx]) (fun hxw => hanotin (hxw ▸ hx))]
    · have ha : a ≠ w := fun h => hanotin (h ▸ hw')
      have hpa : p a = q a := hagree a (by simp) ha
      have ih' := ih hndas hw' fun x hx hxw => hagree x (by simp [hx]) hxw
      rw [List.filter_cons, List.filter_cons, hpa]
      by_cases hqa : q a = true
      · simp only [hqa, if_true, List.length_cons]
        omega
      · rw [Bool.not_eq_true] at hqa
        simp only [hqa, Bool.false_eq_true, if_false]
        exact ih'

/-- The initial protocol state satisfies the invariant. -/
theorem sysInv_init (ws : List Nat) : SysInv ws initSys := by
  refine ⟨?_, ?_, ?_, ?_⟩
  · intro w mr hw
    exact absurd hw (by simp [initSys])
  · intro r hr
    exact absurd rfl hr
  · intro r₁ r₂ h₁ _
    exact absurd rfl h₁
  · intro h
    exact absurd h (by simp [initSys])

/-- Checking in flips exactly the acting worker out of the not-yet-checked-in
filter. -/
theorem unchecked_checkin_flip {ws : List Nat} {s : Sys} {w : Nat}
    (hnd : ws.Nodup) (hw : w ∈ ws) (hwk : s.wrk w = .running) :
    (ws.filter (unchecked s)).length =
      (ws.filter (unchecked { s with remaining := s.remaining - 1, wrk := updf s.wrk w (.parked s.round) })).length + 1 := by
  apply length_filter_flip hnd hw
  · show (!(s.wrk w == WPc.parked s.round)) = true
    rw [hwk]
    rfl
  · show (!(updf s.wrk w (WPc.parked s.round) w == WPc.parked s.round)) = false
    rw [updf_self]
    simp
  · intro x hx hxw
    show (!(s.wrk x == WPc.parked s.round)) =
      (!(updf s.wrk w (WPc.parked s.round) x == WPc.parked s.round))
    rw [updf_ne hxw]

/-- Every protocol step preserves the invariant. -/
theorem rstep_inv {ws : List Nat} {s s' : Sys} {l : Label}
    (hnd : ws.Nodup) (hst : RStep ws s l s') (hinv : SysInv ws s) :
    SysInv ws s' := by
  obtain ⟨h1, h2, h3, h4⟩ := hinv
  cases hst with
  | snapshot r hr hrv =>
    have hallidle : ∀ x, s.req x = .idle := by
      intro x
      by_contra hx
      rw [h2 x hx] at hrv
      exact Bool.noConfusion hrv
    refine ⟨?_, ?_, ?_, ?_⟩
    · intro w mr hw
      exact Nat.le_succ_of_le (h1 w mr hw)
    · intro _ _
      rfl
    · intro r₁ r₂ hr₁ hr₂
      have hv₁ : updf s.req r RPc.waiting r₁ ≠ RPc.idle := hr₁
      have hv₂ : updf s.req r RPc.waiting r₂ ≠ RPc.idle := hr₂
      by_cases e₁ : r₁ = r
      · by_cases e₂ : r₂ = r
        · rw [e₁, e₂]
        · rw [updf_ne e₂] at hv₂
          exact absurd (hallidle r₂) hv₂
      · rw [updf_ne e₁] at hv₁
        exact absurd (hallidle r₁) hv₁
    · intro _
      have hfe : ws.filter (unchecked { in_rendezvous := true, remaining := (ws.length : Int), round := s.round + 1, req := updf s.req r .waiting, wrk := s.wrk }) = ws := by
        apply List.filter_eq_self.mpr
        intro w hw
        show (!(s.wrk w == WPc.parked (s.round + 1))) = true
        rcases hwk : s.wrk w with _ | mr
        · rfl
        · have hle := h1 w mr hwk
          simp only [Bool.not_eq_true', beq_eq_false_iff_ne, ne_eq,
            WPc.parked.injEq]
          omega
      dsimp only
      rw [hfe]
  | reqReturn r hr hrem =>
    refine ⟨h1, ?_, ?_, h4⟩
    · intro x hx
      exact h2 r (by rw [hr]; simp)
    · intro r₁ r₂ q₁ q₂
      have q₁' : updf s.req r RPc.owner r₁ ≠ RPc.idle := q₁
      have q₂' : updf s.req r RPc.owner r₂ ≠ RPc.idle := q₂
      have w₁ : s.req r₁ ≠ .idle := by
        by_cases e : r₁ = r
        · rw [e, hr]; simp
        · rw [updf_ne e] at q₁'
          exact q₁'
      have w₂ : s.req r₂ ≠ .idle := by
        by_cases e : r₂ = r
        · rw [e, hr]; simp
        · rw [updf_ne e] at q₂'
          exact q₂'
      exact h3 _ _ w₁ w₂
  | resume r hr =>
    have honly : ∀ x, s.req x ≠ .idle → x = r := fun x hx =>
      h3 x r hx (by rw [hr]; simp)
    have hnone : ∀ x, updf s.req r RPc.idle x = RPc.idle := by
      intro x
      by_cases e : x = r
      · rw [e, updf_self]
      · rw [updf_ne e]
        by_contra hx
        exact e (honly x hx)
    refine ⟨h1, ?_, ?_, ?_⟩
    · intro x hx
      exact absurd (hnone x) hx
    · intro r₁ r₂ q₁ _
      exact absurd (hnone r₁) q₁
    · intro hfalse
      simp at hfalse
  | checkin w hw hwk hrv =>
    refine ⟨?_, h2, h3, ?_⟩
    · intro x mr hx
      have hx' : updf s.wrk w (WPc.parked s.round) x = WPc.parked mr := hx
      by_cases e : x = w
      · rw [e, updf_self] at hx'
        injection hx' with h'
        exact Nat.le_of_eq h'.symm
      · rw [updf_ne e] at hx'
        exact h1 x mr hx'
    · intro _
      have hcount := h4 hrv
      have hflip := unchecked_checkin_flip hnd hw hwk
      dsimp only
      omega
  | checkinNoop w h =>
    exact ⟨h1, h2, h3, h4⟩
  | wake w mr hwk hcond =>
    refine ⟨?_, h2, h3, ?_⟩
    · intro x mr' hx
      have hx' : updf s.wrk w WPc.running x = WPc.parked mr' := hx
      by_cases e : x = w
      · rw [e, updf_self] at hx'
        exact WPc.noConfusion hx'
      · rw [updf_ne e] at hx'
        exact h1 x mr' hx'
    · intro hrv
      have hcount := h4 hrv
      have hmr : s.round ≠ mr := fun h => hcond ⟨hrv, h⟩
      have hsame : ws.filter (unchecked { s with wrk := updf s.wrk w WPc.running }) = ws.filter (unchecked s) := by
        apply List.filter_congr
        intro x hx
        by_cases e : x = w
        · subst e
          show (!(updf s.wrk x WPc.running x == WPc.parked s.round)) =
            (!(s.wrk x == WPc.parked s.round))
          rw [updf_self, hwk]
          simp [Ne.symm hmr]
        · show (!(updf s.wrk w WPc.running x == WPc.parked s.round)) =
            (!(s.wrk x == WPc.parked s.round))
          rw [updf_ne e]
      dsimp only
      rw [hsame]
      exact hcount

/-- Runs of the protocol preserve the invariant. -/
theorem steps_inv {ws : List Nat} {s s' : Sys} {tr : List Label}
    (hnd : ws.Nodup) (h : Steps ws s tr s') (hinv : SysInv ws s) :
    SysInv ws s' := by
  induction h with
  | nil _ => exact hinv
  | cons hst _ ih => exact ih (rstep_inv hnd hst hinv)

/-- A run over an appended trace splits at the junction. -/
theorem steps_append_inv {ws : List Nat} {s s' : Sys}
    {tr₁ tr₂ : List Label} (h : Steps ws s (tr₁ ++ tr₂) s') :
    ∃ sm, Steps ws s tr₁ sm ∧ Steps ws sm tr₂ s' := by
  induction tr₁ generalizing s with
  | nil => exact ⟨s, Steps.nil s, h⟩
  | cons l ls ih =>
    cases h with
    | cons hst hs =>
      obtain ⟨sm, hA, hB⟩ := ih hs
      exact ⟨sm, Steps.cons hst hA, hB⟩

/-- Only `ResumePausedThreads` ever clears `in_rendezvous`. -/
theorem rstep_in_rendezvous_preserved {ws : List Nat} {s s' : Sys}
    {l : Label} (h : RStep ws s l s') (hrv : s.in_rendezvous = true)
    (hnr : ∀ r, l ≠ Label.resume r) : s'.in_rendezvous = true := by
  cases h with
  | snapshot r h1 h2 => rfl
  | reqReturn r h1 h2 => exact hrv
  | resume r h1 => exact absurd rfl (hnr r)
  | checkin w h1 h2 h3 => exact hrv
  | checkinNoop w h => exact hrv
  | wake w mr h1 h2 => exact hrv

/-- A resume-free run keeps `in_rendezvous` raised. -/
theorem steps_in_rendezvous_preserved {ws : List Nat} {s s' : Sys}
    {tr : List Label} (h : Steps ws s tr s') (hrv : s.in_rendezvous = true)
    (hnr : ∀ r, Label.resume r ∉ tr) : s'.in_rendezvous = true := by
  induction h with
  | nil _ => exact hrv
  | cons hst _ ih =>
    exact ih
      (rstep_in_rendezvous_preserved hst hrv
        (fun r hl => hnr r (hl ▸ List.mem_cons_self _ _)))
      (fun r hm => hnr r (List.mem_cons_of_mem _ hm))

/-- The snapshot transition can only fire with no rendezvous in force. -/
theorem rstep_snapshot_pre {ws : List Nat} {s s' : Sys} {r : Nat}
    (h : RStep ws s (.snapshot r) s') : s.in_rendezvous = false := by
  cases h with
  | snapshot r h1 h2 => exact h2

/-- The snapshot transition raises `in_rendezvous`. -/
theorem rstep_snapshot_post {ws : List Nat} {s s' : Sys} {r : Nat}
    (h : RStep ws s (.snapshot r) s') : s'.in_rendezvous = true := by
  cases h with
  | snapshot r h1 h2 => rfl

/-- Two snapshot transitions always have a resume strictly between them. -/
theorem snapshots_serialized {ws : List Nat} {a b c : List Label}
    {r1 r2 : Nat} {sfin : Sys}
    (h : Steps ws initSys
      (a ++ Label.snapshot r1 :: (b ++ Label.snapshot r2 :: c)) sfin) :
    ∃ r3, Label.resume r3 ∈ b := by
  obtain ⟨s0, -, h1⟩ := steps_append_inv h
  cases h1 with
  | cons hsnap1 hrest =>
    obtain ⟨s2, hb, h2⟩ := steps_append_inv hrest
    cases h2 with
    | cons hsnap2 _ =>
      by_contra hno
      push_neg at hno
      have hmid : s2.in_rendezvous = true :=
        steps_in_rendezvous_preserved hb (rstep_snapshot_post hsnap1) hno
      rw [rstep_snapshot_pre hsnap2] at hmid
      exact Bool.noConfusion hmid

/-- When the pause requester's wait on `remaining = 0` completes, every
scheduled worker is parked at the current round, i.e. has checked in for
exactly this rendezvous. -/
theorem reqReturn_all_checked_in {ws : List Nat} {tr : List Label}
    {s1 s2 : Sys} {r : Nat} (hnd : ws.Nodup)
    (h : Steps ws initSys tr s1) (hret : RStep ws s1 (.reqReturn r) s2) :
    ∀ w ∈ ws, s1.wrk w = .parked s1.round := by
  obtain ⟨h1, h2, h3, h4⟩ := steps_inv hnd h (sysInv_init ws)
  cases hret with
  | reqReturn r hr hrem =>
    have hrv : s1.in_rendezvous = true := h2 r (by rw [hr]; simp)
    have hcount := h4 hrv
    rw [hrem] at hcount
    have hlen : (ws.filter (unchecked s1)).length = 0 := by
      exact_mod_cast hcount.symm
    rw [List.length_eq_zero] at hlen
    intro w hw
    by_contra hne
    have hun : unchecked s1 w = true := by
      show (!(s1.wrk w == WPc.parked s1.round)) = true
      simp only [Bool.not_eq_true', beq_eq_false_iff_ne, ne_eq]
      exact hne
    have hmem : w ∈ ws.filter (unchecked s1) :=
      List.mem_filter.mpr ⟨hw, hun⟩
    rw [hlen] at hmem
    cases hmem

/-- A registry with one scheduled entry (thread 1) and one descheduled entry
(thread 2) whose saved arena is zone 8. -/
def reg3 : Registry :=
  { entries := [{ thread := 1, scheduled := true, state := zapState },
                { thread := 2, scheduled := false,
                  state := { top_exit_frame_info := 0, zone := some 8,
                             payload := 0 } }],
    in_rendezvous := false, remaining := 0, round := 0 }

/-- Live-zone accessor giving thread 1 the live arena 7. -/
def lz3 : ThreadId → Option ZoneId :=
  fun t => if t = 1 then some 7 else none

/-! ### Claim theorems -/

/-- C8: when no entry exists for `t` and no rendezvous is in progress,
`RestoreStateTo` returns normally with `false` (no prior state to restore,
the `state` out-parameter untouched) and the only change to the registry is
one appended entry for `t` with `scheduled = true` and no meaningful saved
state; all pre-existing entries are unchanged. -/
theorem c8_first_attach (r : Registry) (t : ThreadId) (live_tefi : Nat)
    (hrv : r.in_rendezvous = false) (hnone : findEntry r.entries t = none) :
    restoreStateTo r t live_tefi =
      .ok ({ r with entries := r.entries ++
              [{ thread := t, scheduled := true, state := zapState }] },
           false, none) := by
  simp [restoreStateTo, hrv, hnone]

theorem c8_first_attach_witness :
    restoreStateTo emptyRegistry 7 3 =
      .ok ({ emptyRegistry with entries :=
              [{ thread := 7, scheduled := true, state := zapState }] },
           false, none) :=
  c8_first_attach emptyRegistry 7 3 rfl rfl

/-- C5: on a re-attach of `t` that finds an existing entry whose saved
`top_exit_frame_info` differs from the thread's current one, if the current
marker is neither zero nor strictly greater than the saved one, the
monotonicity `ASSERT` at `thread_registry.h:58` fires and the call does not
return normally. -/
theorem c5_reattach_monotonicity_fatal (r : Registry) (t : ThreadId)
    (live_tefi : Nat) (e : Entry) (hrv : r.in_rendezvous = false)
    (hfind : findEntry r.entries t = some e)
    (hne : e.state.top_exit_frame_info ≠ live_tefi)
    (hz : live_tefi ≠ 0)
    (hle : ¬ e.state.top_exit_frame_info < live_tefi) :
    restoreStateTo r t live_tefi = .error .assertFailed := by
  simp [restoreStateTo, hrv, hfind, hne, hz, hle]

theorem c5_reattach_monotonicity_fatal_witness :
    restoreStateTo reg2 1 3 = .error .assertFailed :=
  c5_reattach_monotonicity_fatal reg2 1 3
    { thread := 1, scheduled := false,
      state := { top_exit_frame_info := 5, zone := none, payload := 0 } }
    rfl rfl (by decide) (by decide) (by decide)

/-- C4: with no rendezvous pending, `SaveStateFrom` is fatal (no normal
return) when no entry exists for `t` or when `t`'s entry is not scheduled;
otherwise it returns normally having set exactly `t`'s entry to
`scheduled = false` with saved state `s`, every other entry unchanged. -/
theorem c4_detach_contract (r : Registry) (t : ThreadId) (s : TState)
    (hrv : r.in_rendezvous = false) :
    (findEntry r.entries t = none →
      saveStateFrom r t s = .error .assertFailed) ∧
    (∀ e, findEntry r.entries t = some e → e.scheduled = false →
      saveStateFrom r t s = .error .assertFailed) ∧
    (∀ e, findEntry r.entries t = some e → e.scheduled = true →
      ∃ pre post, r.entries = pre ++ e :: post ∧
        (∀ x ∈ pre, x.thread ≠ t) ∧
        saveStateFrom r t s =
          .ok { r with entries :=
                  pre ++ { e with scheduled := false, state := s } :: post }) := by
  have hcs : checkSafepointLocked r = .ok r := by
    simp [checkSafepointLocked, hrv]
  refine ⟨?_, ?_, ?_⟩
  · intro hnone
    simp [saveStateFrom, hcs, hnone]
  · intro e hfind hsch
    simp [saveStateFrom, hcs, hfind, hsch]
  · intro e hfind hsch
    obtain ⟨pre, post, hes, hpre, het, hupd⟩ :=
      findEntry_updateFirst_decomp hfind
        (fun x => { x with scheduled := false, state := s })
    exact ⟨pre, post, hes, hpre, by simp [saveStateFrom, hcs, hfind, hsch, hupd]⟩

theorem c4_detach_contract_witness :
    saveStateFrom emptyRegistry 2 sampleS = .error .assertFailed :=
  (c4_detach_contract emptyRegistry 2 sampleS rfl).1 rfl

/-- C1: a thread `t` with a currently scheduled entry that detaches with
state `S` and immediately re-attaches (its live `top_exit_frame_info` still
being the one recorded in `S`, nothing having touched its entry in between)
gets back `found_existing = true` with exactly the saved state `S`, and its
entry is left `scheduled = true`. -/
theorem c1_detach_reattach_roundtrip (r : Registry) (t : ThreadId)
    (S : TState) (e : Entry) (hrv : r.in_rendezvous = false)
    (hfind : findEntry r.entries t = some e) (hsched : e.scheduled = true) :
    ∃ r1, saveStateFrom r t S = .ok r1 ∧
      ∃ r2, restoreStateTo r1 t S.top_exit_frame_info =
              .ok (r2, true, some S) ∧
        ∃ e2, findEntry r2.entries t = some e2 ∧ e2.scheduled = true := by
  have hcs : checkSafepointLocked r = .ok r := by
    simp [checkSafepointLocked, hrv]
  obtain ⟨pre, post, hes, hpre, het, hupd⟩ :=
    findEntry_updateFirst_decomp hfind
      (fun x => { x with scheduled := false, state := S })
  have hsave : saveStateFrom r t S =
      .ok { r with entries :=
              pre ++ { e with scheduled := false, state := S } :: post } := by
    simp [saveStateFrom, hcs, hfind, hsched, hupd]
  refine ⟨_, hsave, ?_⟩
  have hfind1 : findEntry
      (pre ++ { e with scheduled := false, state := S } :: post) t =
      some { e with scheduled := false, state := S } :=
    findEntry_append_cons hpre het
  have hupd1 : updateFirst
      (pre ++ { e with scheduled := false, state := S } :: post) t
      (fun x => { x with scheduled := true }) =
      pre ++ { e with scheduled := true, state := S } :: post :=
    updateFirst_append_cons hpre het
  have hfind2 : findEntry
      (pre ++ { e with scheduled := true, state := S } :: post) t =
      some { e with scheduled := true, state := S } :=
    findEntry_append_cons hpre (by simpa using het)
  refine ⟨{ r with entries :=
              pre ++ { e with scheduled := true, state := S } :: post },
    ?_, { e with scheduled := true, state := S }, hfind2, rfl⟩
  simp [restoreStateTo, hrv, hfind1, hupd1]

/-- C2: the public operations preserve the invariant that at most one entry
per thread identity exists in the table.  `RestoreStateTo` and
`SaveStateFrom` are the only operations that produce a new table state;
`Contains`, `CheckNotScheduled` and `VisitObjectPointers` only read the
table (they are state-pure in this embedding and in the source, which
mutates `entries_` nowhere else), so preservation is shown for every normal
return of the two mutators. -/
theorem c2_unique_table_preserved (r : Registry) (hu : uniqueTable r.entries) :
    (∀ t lt out, restoreStateTo r t lt = .ok out →
      uniqueTable out.1.entries) ∧
    (∀ t s r', saveStateFrom r t s = .ok r' → uniqueTable r'.entries) := by
  constructor
  · intro t lt out hok
    rcases restoreStateTo_ok_inv hok with ⟨-, hent⟩ | ⟨hnone, hent⟩
    · unfold uniqueTable
      rw [hent, updateFirst_map_thread
        (f := fun e => { e with scheduled := true }) (fun _ => rfl)]
      exact hu
    · unfold uniqueTable at hu ⊢
      rw [hent, List.map_append]
      simp only [List.map_cons, List.map_nil]
      rw [List.nodup_append]
      refine ⟨hu, List.nodup_singleton _, ?_⟩
      intro a ha hb
      rw [List.mem_singleton] at hb
      subst hb
      rw [findEntry_eq_none_iff] at hnone
      obtain ⟨e, he, het⟩ := List.mem_map.mp ha
      exact hnone e he het
  · intro t s r' hok
    obtain ⟨-, hent⟩ := saveStateFrom_ok_inv hok
    unfold uniqueTable
    rw [hent, updateFirst_map_thread
      (f := fun e => { e with scheduled := false, state := s })
      (fun _ => rfl)]
    exact hu

theorem c2_unique_table_preserved_witness :
    uniqueTable [{ thread := 5, scheduled := true, state := zapState }] :=
  (c2_unique_table_preserved emptyRegistry
    (by simp [uniqueTable, emptyRegistry])).1 5 0
    ({ emptyRegistry with
        entries := [{ thread := 5, scheduled := true, state := zapState }] },
     false, none)
    (restoreStateTo_not_found_eq rfl rfl)

/-- C6: starting from the empty registry, after any successful sequence of
attach/detach operations, `Contains` answers true for exactly the thread
identities that have attached at least once — entries are never removed and
the current `scheduled` state is irrelevant. -/
theorem c6_contains_ever_attached (ops : List Op) (r : Registry)
    (h : run emptyRegistry ops = .ok r) (t : ThreadId) :
    contains r t = true ↔ t ∈ attachedIds ops := by
  rw [run_contains h t]
  simp [contains, emptyRegistry, findEntry]

theorem c6_contains_ever_attached_witness :
    contains { entries := [{ thread := 1, scheduled := false,
                             state := sampleS },
                           { thread := 2, scheduled := true,
                             state := zapState }],
               in_rendezvous := false, remaining := 0, round := 0 } 1 = true :=
  (c6_contains_ever_attached [.attach 1 0, .detach 1 sampleS, .attach 2 0]
    _ (by rfl) 1).mpr (by decide)

/-- C7: `CheckNotScheduled` returns normally (with the registry unread
beyond the scan, hence unchanged) exactly when no entry is scheduled, and
any fatal outcome carries the given isolate together with the thread of a
still-scheduled entry. -/
theorem c7_check_not_scheduled (r : Registry) (iso : IsolateId) :
    (checkNotScheduled r iso = .ok () ↔
      ∀ e ∈ r.entries, e.scheduled = false) ∧
    (∀ i t, checkNotScheduled r iso = .error (i, t) →
      i = iso ∧ ∃ e ∈ r.entries, e.scheduled = true ∧ e.thread = t) := by
  constructor
  · rcases hfe : r.entries.find? (fun e => e.scheduled) with _ | e
    · simp only [checkNotScheduled, hfe]
      constructor
      · intro _ e he
        simpa using List.find?_eq_none.mp hfe e he
      · intro _
        trivial
    · simp only [checkNotScheduled, hfe]
      constructor
      · intro hcon
        exact absurd hcon (by simp)
      · intro hall
        have hsch := List.find?_some hfe
        rw [hall e (List.mem_of_find?_eq_some hfe)] at hsch
        exact absurd hsch (by simp)
  · intro i t h
    unfold checkNotScheduled at h
    rcases hfe : r.entries.find? (fun e => e.scheduled) with _ | e
    · rw [hfe] at h
      exact absurd h (by simp)
    · rw [hfe] at h
      rw [Except.error.injEq, Prod.mk.injEq] at h
      obtain ⟨hi, ht⟩ := h
      exact ⟨hi.symm, e, List.mem_of_find?_eq_some hfe,
        by simpa using List.find?_some hfe, ht⟩

theorem c7_check_not_scheduled_witness :
    checkNotScheduled reg2 0 = .ok () :=
  (c7_check_not_scheduled reg2 0).1.mpr (by decide)

/-- C3: with every applicable arena pointer non-null (the null case is the
subject of C10) and the applicable arenas pairwise distinct (each thread has
its own arena), one `VisitObjectPointers` call with `M` scheduled and `K`
descheduled entries performs `M + K` arena visits, visits the applicable
arena of every entry exactly once — the live `thread->zone()` for scheduled
entries, the saved `state.zone` for descheduled ones — and is entirely
independent of the rendezvous fields. -/
theorem c3_visit_completeness (r : Registry)
    (liveZone : ThreadId → Option ZoneId)
    (hall : ∀ e ∈ r.entries, (appZone liveZone e).isSome = true)
    (hnodup : (visitObjectPointers r liveZone).Nodup) :
    (visitObjectPointers r liveZone).length =
      (r.entries.filter (fun e => e.scheduled)).length +
        (r.entries.filter (fun e => !e.scheduled)).length ∧
    (∀ e ∈ r.entries, ∀ z, appZone liveZone e = some z →
      (visitObjectPointers r liveZone).count z = 1) ∧
    (∀ irv rem rd,
      visitObjectPointers
        { r with in_rendezvous := irv, remaining := rem, round := rd }
        liveZone = visitObjectPointers r liveZone) := by
  refine ⟨?_, ?_, fun _ _ _ => rfl⟩
  · rw [visitObjectPointers, length_filterMap_of_isSome _ _ hall]
    exact List.length_eq_length_filter_add _
  · intro e he z hz
    exact List.count_eq_one_of_mem hnodup
      (List.mem_filterMap.mpr ⟨e, he, hz⟩)

theorem c3_visit_completeness_witness :
    (visitObjectPointers reg3 lz3).count 8 = 1 :=
  (c3_visit_completeness reg3 lz3 (by decide) (by decide)).2.1
    { thread := 2, scheduled := false,
      state := { top_exit_frame_info := 0, zone := some 8, payload := 0 } }
    (by decide) 8 rfl

/-- C10: an entry whose applicable arena pointer is `NULL` (the live
`thread->zone()` when scheduled, the saved `state.zone` otherwise) is
skipped entirely by `VisitObjectPointers`: it contributes no visit, and the
call completes normally with exactly the visits of the remaining entries,
whatever the rendezvous fields hold. -/
theorem c10_null_arena_skipped (liveZone : ThreadId → Option ZoneId)
    (pre post : List Entry) (e : Entry) (irv : Bool) (rem : Int) (rd : Nat)
    (hnull : appZone liveZone e = none) :
    visitObjectPointers ⟨pre ++ e :: post, irv, rem, rd⟩ liveZone =
      visitObjectPointers ⟨pre, irv, rem, rd⟩ liveZone ++
        visitObjectPointers ⟨post, irv, rem, rd⟩ liveZone := by
  simp [visitObjectPointers, List.filterMap_append, List.filterMap_cons,
    hnull]

theorem c10_null_arena_skipped_witness :
    visitObjectPointers
        ⟨[{ thread := 1, scheduled := false,
            state := { top_exit_frame_info := 0, zone := some 5,
                       payload := 0 } },
          { thread := 2, scheduled := true, state := sampleS }],
         false, 0, 0⟩ (fun _ => none) =
      visitObjectPointers
        ⟨[{ thread := 1, scheduled := false,
            state := { top_exit_frame_info := 0, zone := some 5,
                       payload := 0 } }], false, 0, 0⟩ (fun _ => none) ++
        visitObjectPointers ⟨[], false, 0, 0⟩ (fun _ => none) :=
  c10_null_arena_skipped (fun _ => none)
    [{ thread := 1, scheduled := false,
       state := { top_exit_frame_info := 0, zone := some 5, payload := 0 } }]
    [] { thread := 2, scheduled := true, state := sampleS } false 0 0 rfl

/-- C9: in the rendezvous protocol modelled from the spec (the bodies of
`SafepointThreads` / `ResumeAllThreads` / `CheckSafepointLocked` are not in
the repository), (1) any two snapshot steps — the atomic section of
`RequestAndWaitForPause` that captures `remaining` and raises
`in_rendezvous` — are separated by a `ResumePausedThreads` of the earlier
rendezvous, so concurrent pause requests are fully serialized; and (2) the
requester's return transition can only fire when every worker scheduled at
the snapshot (the fixed set `ws`, stable during a rendezvous because
attach/detach cannot proceed then) has checked in for exactly the current
round. -/
theorem c9_rendezvous_serialization (ws : List Nat) (hnd : ws.Nodup) :
    (∀ (a b c : List Label) (r1 r2 : Nat) (sfin : Sys),
      Steps ws initSys
        (a ++ Label.snapshot r1 :: (b ++ Label.snapshot r2 :: c)) sfin →
      ∃ r3, Label.resume r3 ∈ b) ∧
    (∀ (tr : List Label) (s1 s2 : Sys) (r : Nat),
      Steps ws initSys tr s1 → RStep ws s1 (.reqReturn r) s2 →
      ∀ w ∈ ws, s1.wrk w = .parked s1.round) :=
  ⟨fun _ _ _ _ _ _ h => snapshots_serialized h,
   fun _ _ _ _ h hret => reqReturn_all_checked_in hnd h hret⟩

theorem c9_rendezvous_serialization_witness :
    ∃ r3, Label.resume r3 ∈
      ([Label.checkin 0, Label.reqReturn 0, Label.resume 0] : List Label) :=
  (c9_rendezvous_serialization [0] (by decide)).1 []
    [Label.checkin 0, Label.reqReturn 0, Label.resume 0] [] 0 1 _
    (Steps.cons (RStep.snapshot initSys 0 rfl rfl)
      (Steps.cons (RStep.checkin _ 0 (by decide) rfl rfl)
        (Steps.cons (RStep.reqReturn _ 0 (by decide) (by decide))
          (Steps.cons (RStep.resume _ 0 (by decide))
            (Steps.cons (RStep.snapshot _ 1 (by decide) rfl)
              (Steps.nil _))))))

theorem c1_detach_reattach_roundtrip_witness :
    ∃ r1, saveStateFrom reg1 3 sampleS = .ok r1 ∧
      ∃ r2, restoreStateTo r1 3 sampleS.top_exit_frame_info =
              .ok (r2, true, some sampleS) ∧
        ∃ e2, findEntry r2.entries 3 = some e2 ∧ e2.scheduled = true :=
  c1_detach_reattach_roundtrip reg1 3 sampleS
    { thread := 3, scheduled := true, state := zapState } rfl rfl rfl

end ThreadRegistry
